import Mathlib

/- Overview.
Verification development for a PostgreSQL metrics exporter (Rust, `src/main.rs`).

The request handler `metrics()` of the program connects to PostgreSQL, runs three
fixed statistics queries (common effectiveness, cache hit/miss, index usage),
decodes the rows into three record types (`Common_effectiveness`, `Hit_miss`,
`Index_usage`), and renders all records into a newline-delimited text blob by
repeated string concatenation.  Every fallible step is followed by `.unwrap()`,
so any error aborts the whole request.

This file gives a shallow embedding of that pipeline:
- `intRepr` / `decimalRepr` model the Rust `Display` trait for `i64` and
  `rust_decimal::Decimal` (the `\x7b\x7d` placeholders of the `format!` calls);
- the thirteen line functions and `metricsRender` are transcribed from the
  format strings and the three accumulation loops of `metrics()`;
- `metricsHandler` models the unwrap-on-error control flow over an environment
  of query outcomes; `hitMissQuery` models the PostgreSQL semantics of the
  fixed hit/miss SQL text;
- `parseDecimal` models the `FromStr` parsing of `rust_decimal`, used for the decimal
  round-trip property.
-/

/- Section: Decimal values (model of `rust_decimal::Decimal`)

A `rust_decimal::Decimal` is a sign, a 96-bit unsigned integer mantissa and a
scale in `0..=28`; its value is `(-1)^neg * mantissa / 10^scale`.  The bounds
are invariants of the Rust type and appear here as hypotheses where needed. -/

structure Decimal where
  neg : Bool
  mantissa : Nat
  scale : Nat
deriving DecidableEq, Repr

/-- Digit character for a value below ten, as produced by the Rust integer
formatting; the catch-all arm is never reached for actual digits. -/
def digitChar (d : Nat) : Char :=
  match d with
  | 0 => '0'
  | 1 => '1'
  | 2 => '2'
  | 3 => '3'
  | 4 => '4'
  | 5 => '5'
  | 6 => '6'
  | 7 => '7'
  | 8 => '8'
  | 9 => '9'
  | _ => '*'

/-- Numeric value of a digit character (inverse of `digitChar` on digits). -/
def digitVal (c : Char) : Nat := c.toNat - 48

/-- Big-endian decimal digits of `n`, fuel-based so that it reduces in the
kernel; digits are prepended in front of `acc`. -/
def toDigitsBEAux : Nat → Nat → List Char → List Char
  | 0, _, acc => acc
  | fuel + 1, n, acc =>
    if n = 0 then acc
    else toDigitsBEAux fuel (n / 10) (digitChar (n % 10) :: acc)

/-- Big-endian decimal digit string of a natural number, with `0` rendered as
the single digit `0`: the digit sequence the Rust formatting emits. -/
def toDigitsBE (n : Nat) : List Char :=
  if n = 0 then ['0'] else toDigitsBEAux (n + 1) n []

/-- Value of a big-endian digit-character string. -/
def ofDigitsBE (cs : List Char) : Nat :=
  cs.foldl (fun a c => a * 10 + digitVal c) 0

/-- Model of the Rust `Display` output for `i64` (the `\x7b\x7d` placeholder applied to
the integer fields): optional minus sign followed by the decimal digits. -/
def intRepr (i : Int) : String :=
  if i < 0 then "-" ++ String.mk (toDigitsBE i.natAbs)
  else String.mk (toDigitsBE i.natAbs)

/-- Model of the `Display` output of `rust_decimal::Decimal`: the mantissa digit string
with a decimal point inserted `scale` digits from the right, left-padded with
zeros when the mantissa has at most `scale` digits, keeping trailing zeros. -/
def decimalRepr (d : Decimal) : String :=
  let ds := toDigitsBE d.mantissa
  let sign := if d.neg then "-" else ""
  if d.scale = 0 then
    sign ++ String.mk ds
  else if d.scale < ds.length then
    sign ++ String.mk (ds.take (ds.length - d.scale)) ++ "." ++
      String.mk (ds.drop (ds.length - d.scale))
  else
    sign ++ "0." ++ String.mk (List.replicate (d.scale - ds.length) '0' ++ ds)

/- Section: Record types (transcribed from `src/main.rs`) -/

/-- One row of the common-effectiveness query (`struct Common_effectiveness`);
the `i64` columns become `Int`. -/
structure Common_effectiveness where
  relname : String
  seq_scan : Int
  seq_tup_read : Int
  idx_scan : Int
  avg : Int
  vacuum_full_count : Int
  autovacuum_count : Int
  analyze_count : Int
  autoanalyze_count : Int
deriving DecidableEq, Repr

/-- One row of the hit/miss query (`struct Hit_miss`); the source names the
third field `ratio`, rendered here as `ratioVal`. -/
structure Hit_miss where
  heap_read : Decimal
  heap_hit : Decimal
  ratioVal : Decimal
deriving DecidableEq, Repr

/-- One row of the index-usage query (`struct Index_usage`). -/
structure Index_usage where
  relname : String
  percent_of_times_index_used : Int
  rows_in_table : Int
deriving DecidableEq, Repr

/- Section: Line rendering (transcribed from the `format!` calls of `metrics()`) -/

def ceSeqScanLine (i : Common_effectiveness) : String :=
  "test.postgresql.common_effectiveness.seq_scan." ++ i.relname ++ ": " ++
    intRepr i.seq_scan ++ "\n"

def ceSeqTupReadLine (i : Common_effectiveness) : String :=
  "test.postgresql.common_effectiveness.seq_tup_read." ++ i.relname ++ ": " ++
    intRepr i.seq_tup_read ++ "\n"

def ceIdxScanLine (i : Common_effectiveness) : String :=
  "test.postgresql.common_effectiveness.idx_scan." ++ i.relname ++ ": " ++
    intRepr i.idx_scan ++ "\n"

def ceVacuumFullCountLine (i : Common_effectiveness) : String :=
  "test.postgresql.common_effectiveness.vacuum_full_count." ++ i.relname ++ ": " ++
    intRepr i.vacuum_full_count ++ "\n"

def ceAutovacuumCountLine (i : Common_effectiveness) : String :=
  "test.postgresql.common_effectiveness.autovacuum_count." ++ i.relname ++ ": " ++
    intRepr i.autovacuum_count ++ "\n"

def ceAnalyzeCountLine (i : Common_effectiveness) : String :=
  "test.postgresql.common_effectiveness.analyze_count." ++ i.relname ++ ": " ++
    intRepr i.analyze_count ++ "\n"

def ceAutoanalyzeCountLine (i : Common_effectiveness) : String :=
  "test.postgresql.common_effectiveness.autoanalyze_count." ++ i.relname ++ ": " ++
    intRepr i.autoanalyze_count ++ "\n"

def ceAvgLine (i : Common_effectiveness) : String :=
  "test.postgresql.common_effectiveness.avg." ++ i.relname ++ ": " ++
    intRepr i.avg ++ "\n"

def hmHeapReadLine (i : Hit_miss) : String :=
  "test.postgresql.common_effectiveness.heap_read: " ++ decimalRepr i.heap_read ++ "\n"

def hmHeapHitLine (i : Hit_miss) : String :=
  "test.postgresql.common_effectiveness.heap_hit: " ++ decimalRepr i.heap_hit ++ "\n"

def hmRatioLine (i : Hit_miss) : String :=
  "test.postgresql.common_effectiveness.ratio: " ++ decimalRepr i.ratioVal ++ "\n"

def iuPercentLine (i : Index_usage) : String :=
  "test.postgresql.common_effectiveness.percent_of_times_index_used." ++ i.relname ++
    ": " ++ intRepr i.percent_of_times_index_used ++ "\n"

def iuRowsInTableLine (i : Index_usage) : String :=
  "test.postgresql.common_effectiveness.rows_in_table." ++ i.relname ++ ": " ++
    intRepr i.rows_in_table ++ "\n"

/-- The rendering phase of `metrics()`: starting from the empty string, the
three `for` loops append the lines of each record in turn by string concatenation,
exactly in the order of the source. -/
def metricsRender (ce : List Common_effectiveness) (hm : List Hit_miss)
    (iu : List Index_usage) : String :=
  let result := ""
  let result := ce.foldl (fun result i =>
    result ++ ceSeqScanLine i ++ ceSeqTupReadLine i ++ ceIdxScanLine i ++
      ceVacuumFullCountLine i ++ ceAutovacuumCountLine i ++ ceAnalyzeCountLine i ++
      ceAutoanalyzeCountLine i ++ ceAvgLine i) result
  let result := hm.foldl (fun result i =>
    result ++ hmHeapReadLine i ++ hmHeapHitLine i ++ hmRatioLine i) result
  let result := iu.foldl (fun result i =>
    result ++ iuPercentLine i ++ iuRowsInTableLine i) result
  result

/- Section: Row decoding and the unwrap-on-error control flow of `metrics()` -/

/-- A PostgreSQL column value as seen by the driver: the three column types the
program reads (`bigint`, `text`, `numeric`) plus SQL `NULL`. -/
inductive PgValue where
  | int8 : Int → PgValue
  | text : String → PgValue
  | numeric : Decimal → PgValue
  | null : PgValue
deriving DecidableEq, Repr

/-- A result row is a positional list of column values. -/
abbrev Row := List PgValue

/-- Positional `row.get::<_, String>(i)`: fails (panics in Rust) unless column
`i` exists and is `text`. -/
def getText (row : Row) (i : Nat) : Option String :=
  match row.get? i with
  | some (.text s) => some s
  | _ => none

/-- Positional `row.get::<_, i64>(i)`: fails unless column `i` is `bigint`. -/
def getInt8 (row : Row) (i : Nat) : Option Int :=
  match row.get? i with
  | some (.int8 n) => some n
  | _ => none

/-- Positional `row.get::<_, Decimal>(i)`: fails unless column `i` is
`numeric` and non-null. -/
def getNumeric (row : Row) (i : Nat) : Option Decimal :=
  match row.get? i with
  | some (.numeric d) => some d
  | _ => none

/-- The field-by-field decoding of one common-effectiveness row, with the
column indices of the source (`relname` at 0 … `avg` at 8). -/
def decodeCommonEffectiveness (row : Row) : Option Common_effectiveness := do
  let relname ← getText row 0
  let seq_scan ← getInt8 row 1
  let seq_tup_read ← getInt8 row 2
  let idx_scan ← getInt8 row 3
  let vacuum_full_count ← getInt8 row 4
  let autovacuum_count ← getInt8 row 5
  let analyze_count ← getInt8 row 6
  let autoanalyze_count ← getInt8 row 7
  let avg ← getInt8 row 8
  some ⟨relname, seq_scan, seq_tup_read, idx_scan, avg,
        vacuum_full_count, autovacuum_count, analyze_count, autoanalyze_count⟩

/-- The field-by-field decoding of the hit/miss row (columns 0, 1, 2). -/
def decodeHitMiss (row : Row) : Option Hit_miss := do
  let heap_read ← getNumeric row 0
  let heap_hit ← getNumeric row 1
  let r ← getNumeric row 2
  some ⟨heap_read, heap_hit, r⟩

/-- The field-by-field decoding of one index-usage row (columns 0, 1, 2). -/
def decodeIndexUsage (row : Row) : Option Index_usage := do
  let relname ← getText row 0
  let percent ← getInt8 row 1
  let rows_in_table ← getInt8 row 2
  some ⟨relname, percent, rows_in_table⟩

/-- Decoding of a whole result set, as the `.iter().map(...).collect()` of the source
whose `row.get` panics on the first undecodable row: any failure fails the
whole list. -/
def decodeRows (dec : Row → Option α) : List Row → Option (List α)
  | [] => some []
  | r :: rs =>
    match dec r, decodeRows dec rs with
    | some x, some xs => some (x :: xs)
    | _, _ => none

/-- Failure classes of the PostgreSQL driver steps the handler performs. -/
inductive PgError where
  | connectionFailed
  | divisionByZero
  | otherError : String → PgError
deriving DecidableEq, Repr

deriving instance DecidableEq for Except

/-- Outcomes of the driver calls made by one request, in source order:
`connect`, then prepare/query for each of the three statements. -/
structure PgEnv where
  connectRes : Except PgError Unit
  prepareCE : Except PgError Unit
  queryCE : Except PgError (List Row)
  prepareHM : Except PgError Unit
  queryHM : Except PgError (List Row)
  prepareIU : Except PgError Unit
  queryIU : Except PgError (List Row)

/-- The control flow of `metrics()`: every driver call and every row decoding
is unwrapped, so the first failure aborts the request (`none`, the panic);
on full success the three record lists are rendered. -/
def metricsHandler (env : PgEnv) : Option String :=
  match env.connectRes with
  | .error _ => none
  | .ok _ =>
    match env.prepareCE with
    | .error _ => none
    | .ok _ =>
      match env.queryCE with
      | .error _ => none
      | .ok ceRows =>
        match decodeRows decodeCommonEffectiveness ceRows with
        | none => none
        | some ce =>
          match env.prepareHM with
          | .error _ => none
          | .ok _ =>
            match env.queryHM with
            | .error _ => none
            | .ok hmRows =>
              match decodeRows decodeHitMiss hmRows with
              | none => none
              | some hm =>
                match env.prepareIU with
                | .error _ => none
                | .ok _ =>
                  match env.queryIU with
                  | .error _ => none
                  | .ok iuRows =>
                    match decodeRows decodeIndexUsage iuRows with
                    | none => none
                    | some iu => some (metricsRender ce hm iu)

/- Section: PostgreSQL semantics of the fixed hit/miss SQL text

The statement is `SELECT sum(heap_blks_read) as heap_read, sum(heap_blks_hit)
as heap_hit, sum(heap_blks_hit) / (sum(heap_blks_hit) + sum(heap_blks_read))
as ratio FROM pg_statio_user_tables`.  PostgreSQL sums `bigint` into `numeric`
(`NULL` over an empty input), and `numeric` division by zero raises a
`division_by_zero` error; the result scale of the quotient is abstracted here to 16
fractional digits. -/

/-- An input row of `pg_statio_user_tables`, restricted to the two columns the
statement reads. -/
structure StatioRow where
  heap_blks_read : Int
  heap_blks_hit : Int
deriving DecidableEq, Repr

/-- A `bigint` sum as a scale-0 `numeric` value. -/
def intToDecimal (i : Int) : Decimal :=
  if i < 0 then ⟨true, i.natAbs, 0⟩ else ⟨false, i.natAbs, 0⟩

/-- Nonzero-divisor `numeric` division, with the result scale abstracted to 16
fractional digits. -/
def pgNumericDiv (x y : Int) : Decimal :=
  let q : Int := x * 10 ^ 16 / y
  if q < 0 then ⟨true, q.natAbs, 16⟩ else ⟨false, q.natAbs, 16⟩

/-- Evaluation of the hit/miss statement over the statistics view: one row of
`NULL`s when the view is empty, a `division_by_zero` error when both sums are
zero, and otherwise one row with the two sums and their ratio. -/
def hitMissQuery (db : List StatioRow) : Except PgError (List Row) :=
  match db with
  | [] => .ok [[PgValue.null, PgValue.null, PgValue.null]]
  | _ =>
    let read := (db.map (fun r => r.heap_blks_read)).sum
    let hit := (db.map (fun r => r.heap_blks_hit)).sum
    if hit + read = 0 then .error .divisionByZero
    else .ok [[PgValue.numeric (intToDecimal read), PgValue.numeric (intToDecimal hit),
               PgValue.numeric (pgNumericDiv hit (hit + read))]]

/-- A request environment in which every step succeeds except that the hit/miss
query is evaluated against the given statistics view (the other two queries
return no rows). -/
def envOfHitMiss (db : List StatioRow) : PgEnv :=
  { connectRes := .ok (), prepareCE := .ok (), queryCE := .ok [],
    prepareHM := .ok (), queryHM := hitMissQuery db,
    prepareIU := .ok (), queryIU := .ok [] }

/-! Model of the `FromStr` parsing of `rust_decimal` -/

/-- ASCII decimal digit test, as `char::is_ascii_digit`. -/
def isDigitChar (c : Char) : Bool := 48 ≤ c.toNat && c.toNat ≤ 57

/-- Splitting a character list at every `.`. -/
def splitOnDot : List Char → List (List Char)
  | [] => [[]]
  | c :: rest =>
    if c = '.' then [] :: splitOnDot rest
    else
      match splitOnDot rest with
      | [] => [[c]]
      | p :: ps => (c :: p) :: ps

/-- Assembly of the dot-separated parts of a decimal literal: a nonempty digit
string, optionally followed by a nonempty fractional digit string; the mantissa
is the concatenated digits and the scale the fractional length.  Parsing fails
on a mantissa of 96 bits or more or a scale above 28, the capacity limits of
`rust_decimal`. -/
def parseDigitsParts (neg : Bool) : List (List Char) → Option Decimal
  | [ip] =>
    if !ip.isEmpty && ip.all isDigitChar then
      let m := ofDigitsBE ip
      if m < 2 ^ 96 then some ⟨neg, m, 0⟩ else none
    else none
  | [ip, fp] =>
    if !ip.isEmpty && !fp.isEmpty && ip.all isDigitChar && fp.all isDigitChar then
      let m := ofDigitsBE (ip ++ fp)
      if m < 2 ^ 96 ∧ fp.length ≤ 28 then some ⟨neg, m, fp.length⟩ else none
    else none
  | _ => none

/-- Parsing of the character list: strip an optional leading minus sign, split
at the decimal point, and assemble the parts. -/
def parseDecimalChars (cs : List Char) : Option Decimal :=
  let neg : Bool := cs.head? == some '-'
  let body := if neg then cs.tail else cs
  parseDigitsParts neg (splitOnDot body)

/-- Parsing of a decimal string (`Decimal::from_str`). -/
def parseDecimal (s : String) : Option Decimal := parseDecimalChars s.data

/-- Occurrences of the newline character in a string, for counting rendered
lines. -/
def countNewlines (s : String) : Nat := s.data.count '\n'

/- Section: Derived views of the renderer used by the statements below -/

/-- The eight lines one common-effectiveness record contributes, concatenated
in source order. -/
def ceBlock (i : Common_effectiveness) : String :=
  ceSeqScanLine i ++ ceSeqTupReadLine i ++ ceIdxScanLine i ++ ceVacuumFullCountLine i ++
    ceAutovacuumCountLine i ++ ceAnalyzeCountLine i ++ ceAutoanalyzeCountLine i ++ ceAvgLine i

/-- The three lines one hit/miss record contributes, concatenated in source
order. -/
def hmBlock (i : Hit_miss) : String :=
  hmHeapReadLine i ++ hmHeapHitLine i ++ hmRatioLine i

/-- The two lines one index-usage record contributes, concatenated in source
order. -/
def iuBlock (i : Index_usage) : String :=
  iuPercentLine i ++ iuRowsInTableLine i

/-- The part of the output contributed by the common-effectiveness loop. -/
def ceSection (ce : List Common_effectiveness) : String := String.join (ce.map ceBlock)

/-- The part of the output contributed by the hit/miss loop. -/
def hmSection (hm : List Hit_miss) : String := String.join (hm.map hmBlock)

/-- The part of the output contributed by the index-usage loop. -/
def iuSection (iu : List Index_usage) : String := String.join (iu.map iuBlock)

/-- The eight lines of one common-effectiveness record, as a list. -/
def ceLineList (i : Common_effectiveness) : List String :=
  [ceSeqScanLine i, ceSeqTupReadLine i, ceIdxScanLine i, ceVacuumFullCountLine i,
   ceAutovacuumCountLine i, ceAnalyzeCountLine i, ceAutoanalyzeCountLine i, ceAvgLine i]

/-- The three lines of one hit/miss record, as a list. -/
def hmLineList (i : Hit_miss) : List String :=
  [hmHeapReadLine i, hmHeapHitLine i, hmRatioLine i]

/-- The two lines of one index-usage record, as a list. -/
def iuLineList (i : Index_usage) : List String :=
  [iuPercentLine i, iuRowsInTableLine i]

/-- All lines of the rendered output, in order. -/
def allLines (ce : List Common_effectiveness) (hm : List Hit_miss)
    (iu : List Index_usage) : List String :=
  (ce.map ceLineList).flatten ++ (hm.map hmLineList).flatten ++ (iu.map iuLineList).flatten

/-- A string that is one complete output line: it ends in a newline and
contains no other newline. -/
def NlLine (l : String) : Prop := ∃ s, l = s ++ "\n" ∧ countNewlines s = 0

/- Section: Concrete records used in the end-to-end statements -/

/-- The `orders` table record of the end-to-end scenario of the specification:
seq_scan 10, seq_tup_read 500, idx_scan 3, avg 50, vacuum_full_count 1,
autovacuum_count 2, analyze_count 0, autoanalyze_count 4. -/
def ordersRec : Common_effectiveness :=
  ⟨"orders", 10, 500, 3, 50, 1, 2, 0, 4⟩

/-- The hit/miss record of the end-to-end scenario: heap_read 100,
heap_hit 900 (scale-0 sums) and a ratio of 0.9. -/
def hmRec09 : Hit_miss :=
  ⟨⟨false, 100, 0⟩, ⟨false, 900, 0⟩, ⟨false, 9, 1⟩⟩

/-- A sample index-usage record. -/
def iuRecSample : Index_usage :=
  ⟨"users", 75, 1000⟩

/-- A common-effectiveness record whose table name contains a newline
character, as PostgreSQL quoted identifiers allow. -/
def ceNewlineRec : Common_effectiveness :=
  ⟨"a\nb", 1, 1, 1, 1, 1, 1, 1, 1⟩

/- Section: String toolkit -/

/-- Folding string concatenation over a list prepends the initial value to the
join of the list. -/
theorem strFoldl_eq_join (l : List String) (init : String) :
    l.foldl (fun r s => r ++ s) init = init ++ String.join l := by
  induction l generalizing init with
  | nil => simp [String.join]
  | cons a l ih =>
    show l.foldl _ (init ++ a) = _
    rw [ih]
    have h : String.join (a :: l) = a ++ String.join l := by
      show l.foldl _ ("" ++ a) = _
      rw [ih, String.empty_append]
    rw [h, String.append_assoc]

/-- Join of a cons. -/
theorem strJoin_cons (a : String) (l : List String) :
    String.join (a :: l) = a ++ String.join l := by
  show l.foldl _ ("" ++ a) = _
  rw [strFoldl_eq_join, String.empty_append]

/-- Join distributes over list append. -/
theorem strJoin_append (l₁ l₂ : List String) :
    String.join (l₁ ++ l₂) = String.join l₁ ++ String.join l₂ := by
  induction l₁ with
  | nil => simp [String.join]
  | cons a l ih => simp [strJoin_cons, ih, String.append_assoc]

/-- Folding a per-element append over a list yields the join of the mapped
list after the initial value. -/
theorem strFoldl_map_eq_join {α : Type} (f : α → String) (l : List α) (init : String) :
    l.foldl (fun r i => r ++ f i) init = init ++ String.join (l.map f) := by
  induction l generalizing init with
  | nil => simp [String.join]
  | cons a l ih =>
    show l.foldl _ (init ++ f a) = _
    rw [ih, List.map_cons, strJoin_cons, String.append_assoc]

/- Section: The renderer is the in-order join of the per-record blocks -/

/-- The accumulation loops of `metrics()` produce the three sections in order:
common effectiveness, then hit/miss, then index usage. -/
theorem metricsRender_eq_sections (ce : List Common_effectiveness) (hm : List Hit_miss)
    (iu : List Index_usage) :
    metricsRender ce hm iu = ceSection ce ++ hmSection hm ++ iuSection iu := by
  have hce : (fun (result : String) (i : Common_effectiveness) =>
      result ++ ceSeqScanLine i ++ ceSeqTupReadLine i ++ ceIdxScanLine i ++
        ceVacuumFullCountLine i ++ ceAutovacuumCountLine i ++ ceAnalyzeCountLine i ++
        ceAutoanalyzeCountLine i ++ ceAvgLine i) =
      fun result i => result ++ ceBlock i := by
    funext result i
    simp [ceBlock, String.append_assoc]
  have hhm : (fun (result : String) (i : Hit_miss) =>
      result ++ hmHeapReadLine i ++ hmHeapHitLine i ++ hmRatioLine i) =
      fun result i => result ++ hmBlock i := by
    funext result i
    simp [hmBlock, String.append_assoc]
  have hiu : (fun (result : String) (i : Index_usage) =>
      result ++ iuPercentLine i ++ iuRowsInTableLine i) =
      fun result i => result ++ iuBlock i := by
    funext result i
    simp [iuBlock, String.append_assoc]
  show iu.foldl _ (hm.foldl _ (ce.foldl _ "")) = _
  rw [hce, hhm, hiu, strFoldl_map_eq_join, strFoldl_map_eq_join, strFoldl_map_eq_join,
    String.empty_append]
  rw [ceSection, hmSection, iuSection, String.append_assoc]

/- Section: Newline counting -/

/-- Newline count distributes over string concatenation. -/
theorem countNewlines_append (a b : String) :
    countNewlines (a ++ b) = countNewlines a + countNewlines b := by
  simp [countNewlines, String.data_append, List.count_append]

/-- Newline count of a join is the sum over the parts. -/
theorem countNewlines_join (L : List String) :
    countNewlines (String.join L) = (L.map countNewlines).sum := by
  induction L with
  | nil => rfl
  | cons a L ih => simp [strJoin_cons, countNewlines_append, ih]

/-- Every character produced by `toDigitsBEAux` is a digit character, or comes
from the given accumulator. -/
theorem toDigitsBEAux_mem (fuel : Nat) :
    ∀ (n : Nat) (acc : List Char) (c : Char), c ∈ toDigitsBEAux fuel n acc →
      c ∈ acc ∨ ∃ d, d < 10 ∧ c = digitChar d := by
  induction fuel with
  | zero =>
    intro n acc c h
    exact Or.inl h
  | succ fuel ih =>
    intro n acc c h
    unfold toDigitsBEAux at h
    by_cases hn : n = 0
    · rw [if_pos hn] at h
      exact Or.inl h
    · rw [if_neg hn] at h
      rcases ih (n / 10) _ c h with h' | h'
      · rcases List.mem_cons.mp h' with h'' | h''
        · exact Or.inr ⟨n % 10, Nat.mod_lt _ (by norm_num), h''⟩
        · exact Or.inl h''
      · exact Or.inr h'

/-- Every character of the digit string of `n` is a digit character. -/
theorem toDigitsBE_mem {n : Nat} {c : Char} (h : c ∈ toDigitsBE n) :
    ∃ d, d < 10 ∧ c = digitChar d := by
  unfold toDigitsBE at h
  by_cases hn : n = 0
  · rw [if_pos hn] at h
    simp at h
    exact ⟨0, by norm_num, h⟩
  · rw [if_neg hn] at h
    rcases toDigitsBEAux_mem _ _ _ _ h with h' | h'
    · simp at h'
    · exact h'

/-- Digit characters are never the newline character. -/
theorem digitChar_ne_newline (d : Nat) : digitChar d ≠ '\n' := by
  unfold digitChar
  split <;> decide

/-- Digit characters are never the decimal point. -/
theorem digitChar_ne_dot (d : Nat) : digitChar d ≠ '.' := by
  unfold digitChar
  split <;> decide

/-- The digit string of `n` contains no newline. -/
theorem count_newline_toDigitsBE (n : Nat) : (toDigitsBE n).count '\n' = 0 := by
  rw [List.count_eq_zero]
  intro h
  rcases toDigitsBE_mem h with ⟨d, _, hd⟩
  exact digitChar_ne_newline d hd.symm

/-- The integer rendering contains no newline. -/
theorem countNewlines_intRepr (i : Int) : countNewlines (intRepr i) = 0 := by
  unfold intRepr
  split
  · rw [countNewlines_append]
    show 0 + (toDigitsBE i.natAbs).count '\n' = 0
    rw [count_newline_toDigitsBE]
  · exact count_newline_toDigitsBE _

/-- The decimal rendering contains no newline. -/
theorem countNewlines_decimalRepr (d : Decimal) : countNewlines (decimalRepr d) = 0 := by
  have hdig : ∀ c ∈ toDigitsBE d.mantissa, c ≠ '\n' := fun c hc => by
    rcases toDigitsBE_mem hc with ⟨k, _, hk⟩
    rw [hk]
    exact digitChar_ne_newline k
  rw [countNewlines, List.count_eq_zero]
  intro hmem
  simp only [decimalRepr] at hmem
  split at hmem
  · simp only [String.data_append, List.mem_append] at hmem
    rcases hmem with h | h
    · revert h
      split <;> decide
    · exact hdig _ h rfl
  · split at hmem
    · simp only [String.data_append, List.mem_append] at hmem
      rcases hmem with ((h | h) | h) | h
      · revert h
        split <;> decide
      · exact hdig _ (List.mem_of_mem_take h) rfl
      · revert h
        decide
      · exact hdig _ (List.mem_of_mem_drop h) rfl
    · simp only [String.data_append, List.mem_append] at hmem
      rcases hmem with (h | h) | h | h
      · revert h
        split <;> decide
      · revert h
        decide
      · exact absurd (List.eq_of_mem_replicate h) (by decide)
      · exact hdig _ h rfl

/- Section: Complete-line facts -/

/-- A complete line has exactly one newline. -/
theorem nlLine_count {l : String} (h : NlLine l) : countNewlines l = 1 := by
  rcases h with ⟨s, rfl, hs⟩
  rw [countNewlines_append, hs]
  rfl

/-- A join of complete lines has as many newlines as lines. -/
theorem countNewlines_join_lines {L : List String} (h : ∀ l ∈ L, NlLine l) :
    countNewlines (String.join L) = L.length := by
  induction L with
  | nil => rfl
  | cons a L ih =>
    rw [strJoin_cons, countNewlines_append, nlLine_count (h a (List.mem_cons_self a L)),
      ih (fun l hl => h l (List.mem_cons_of_mem a hl)), List.length_cons, Nat.add_comm]

/-- A concatenation of four newline-free pieces and a final newline is a
complete line. -/
theorem nlLine_concat4 (a b c d : String) (ha : countNewlines a = 0)
    (hb : countNewlines b = 0) (hc : countNewlines c = 0) (hd : countNewlines d = 0) :
    NlLine (a ++ b ++ c ++ d ++ "\n") := by
  refine ⟨a ++ b ++ c ++ d, rfl, ?_⟩
  rw [countNewlines_append, countNewlines_append, countNewlines_append, ha, hb, hc, hd]

/-- A concatenation of two newline-free pieces and a final newline is a
complete line. -/
theorem nlLine_concat2 (a b : String) (ha : countNewlines a = 0)
    (hb : countNewlines b = 0) : NlLine (a ++ b ++ "\n") := by
  refine ⟨a ++ b, rfl, ?_⟩
  rw [countNewlines_append, ha, hb]

/-- Each of the eight common-effectiveness lines is a complete line when the
table name has no newline. -/
theorem ceLineList_nlLine {i : Common_effectiveness} (h : countNewlines i.relname = 0) :
    ∀ l ∈ ceLineList i, NlLine l := by
  intro l hl
  simp only [ceLineList, List.mem_cons, List.not_mem_nil, or_false] at hl
  rcases hl with rfl | rfl | rfl | rfl | rfl | rfl | rfl | rfl <;>
    exact nlLine_concat4 _ _ _ _ (by decide) h (by decide) (countNewlines_intRepr _)

/-- Each of the three hit/miss lines is a complete line, unconditionally. -/
theorem hmLineList_nlLine (i : Hit_miss) : ∀ l ∈ hmLineList i, NlLine l := by
  intro l hl
  simp only [hmLineList, List.mem_cons, List.not_mem_nil, or_false] at hl
  rcases hl with rfl | rfl | rfl <;>
    exact nlLine_concat2 _ _ (by decide) (countNewlines_decimalRepr _)

/-- Each of the two index-usage lines is a complete line when the table name
has no newline. -/
theorem iuLineList_nlLine {i : Index_usage} (h : countNewlines i.relname = 0) :
    ∀ l ∈ iuLineList i, NlLine l := by
  intro l hl
  simp only [iuLineList, List.mem_cons, List.not_mem_nil, or_false] at hl
  rcases hl with rfl | rfl <;>
    exact nlLine_concat4 _ _ _ _ (by decide) h (by decide) (countNewlines_intRepr _)

/-- The block of a record is the join of its line list. -/
theorem ceBlock_eq_join (i : Common_effectiveness) :
    ceBlock i = String.join (ceLineList i) := by
  simp [ceBlock, ceLineList, strJoin_cons, String.join, String.append_assoc]

/-- The hit/miss block is the join of its line list. -/
theorem hmBlock_eq_join (i : Hit_miss) :
    hmBlock i = String.join (hmLineList i) := by
  simp [hmBlock, hmLineList, strJoin_cons, String.join, String.append_assoc]

/-- The index-usage block is the join of its line list. -/
theorem iuBlock_eq_join (i : Index_usage) :
    iuBlock i = String.join (iuLineList i) := by
  simp [iuBlock, iuLineList, strJoin_cons, String.join, String.append_assoc]

/- Section: Output as a list of lines -/

/-- Join of a flattened list of line lists equals the join of the per-record
joins. -/
theorem strJoin_flatten (LL : List (List String)) :
    String.join LL.flatten = String.join (LL.map String.join) := by
  induction LL with
  | nil => rfl
  | cons a LL ih => simp [strJoin_cons, strJoin_append, ih]

/-- The rendered output is the join of the full line list. -/
theorem metricsRender_eq_join_allLines (ce : List Common_effectiveness)
    (hm : List Hit_miss) (iu : List Index_usage) :
    metricsRender ce hm iu = String.join (allLines ce hm iu) := by
  rw [metricsRender_eq_sections, allLines, strJoin_append, strJoin_append,
    strJoin_flatten, strJoin_flatten, strJoin_flatten]
  rw [ceSection, hmSection, iuSection, List.map_map, List.map_map, List.map_map]
  have h1 : String.join ∘ ceLineList = ceBlock := by
    funext i
    rw [Function.comp_apply, ceBlock_eq_join]
  have h2 : String.join ∘ hmLineList = hmBlock := by
    funext i
    rw [Function.comp_apply, hmBlock_eq_join]
  have h3 : String.join ∘ iuLineList = iuBlock := by
    funext i
    rw [Function.comp_apply, iuBlock_eq_join]
  rw [h1, h2, h3]

/-- Sum of a constant map. -/
theorem sum_map_const {α : Type} (l : List α) (k : Nat) :
    (l.map (fun _ => k)).sum = k * l.length := by
  induction l with
  | nil => rfl
  | cons a l ih => simp [ih, Nat.mul_add, Nat.mul_one, Nat.add_comm, Nat.mul_comm]

/-- The full line list has eight lines per common-effectiveness record, three
per hit/miss record and two per index-usage record. -/
theorem allLines_length (ce : List Common_effectiveness) (hm : List Hit_miss)
    (iu : List Index_usage) :
    (allLines ce hm iu).length = 8 * ce.length + 3 * hm.length + 2 * iu.length := by
  rw [allLines, List.length_append, List.length_append, List.length_flatten,
    List.length_flatten, List.length_flatten, List.map_map, List.map_map, List.map_map]
  have h1 : List.length ∘ ceLineList = fun _ => 8 := by
    funext i
    rfl
  have h2 : List.length ∘ hmLineList = fun _ => 3 := by
    funext i
    rfl
  have h3 : List.length ∘ iuLineList = fun _ => 2 := by
    funext i
    rfl
  rw [h1, h2, h3, sum_map_const, sum_map_const, sum_map_const]

/-- Every member of the full line list is a complete line, provided no table
name contains a newline. -/
theorem allLines_nlLine {ce : List Common_effectiveness} {hm : List Hit_miss}
    {iu : List Index_usage} (hce : ∀ r ∈ ce, countNewlines r.relname = 0)
    (hiu : ∀ r ∈ iu, countNewlines r.relname = 0) :
    ∀ l ∈ allLines ce hm iu, NlLine l := by
  intro l hl
  rw [allLines, List.mem_append, List.mem_append] at hl
  rcases hl with (h | h) | h
  · rw [List.mem_flatten] at h
    rcases h with ⟨L, hL, hlL⟩
    rw [List.mem_map] at hL
    rcases hL with ⟨r, hr, rfl⟩
    exact ceLineList_nlLine (hce r hr) l hlL
  · rw [List.mem_flatten] at h
    rcases h with ⟨L, hL, hlL⟩
    rw [List.mem_map] at hL
    rcases hL with ⟨r, hr, rfl⟩
    exact hmLineList_nlLine r l hlL
  · rw [List.mem_flatten] at h
    rcases h with ⟨L, hL, hlL⟩
    rw [List.mem_map] at hL
    rcases hL with ⟨r, hr, rfl⟩
    exact iuLineList_nlLine (hiu r hr) l hlL

/- Section: Hit/miss line counting (three lines per row) -/

/-- The hit/miss section contributes exactly three lines per returned row. -/
theorem countNewlines_hmSection (hm : List Hit_miss) :
    countNewlines (hmSection hm) = 3 * hm.length := by
  rw [hmSection, countNewlines_join, List.map_map]
  have h : countNewlines ∘ hmBlock = fun _ => 3 := by
    funext i
    rw [Function.comp_apply, hmBlock_eq_join, countNewlines_join_lines (hmLineList_nlLine i)]
    rfl
  rw [h, sum_map_const]

/- Section: Digit arithmetic -/

/-- Value of a digit character built from a digit. -/
theorem digitVal_digitChar (d : Nat) (hd : d < 10) : digitVal (digitChar d) = d := by
  interval_cases d <;> decide

/-- Digit characters pass the ASCII digit test. -/
theorem isDigitChar_digitChar (d : Nat) (hd : d < 10) : isDigitChar (digitChar d) = true := by
  interval_cases d <;> decide

/-- Digit characters are never the minus sign. -/
theorem digitChar_ne_dash (d : Nat) : digitChar d ≠ '-' := by
  unfold digitChar
  split <;> decide

/-- Folding the base-10 accumulation from an initial value shifts the initial
value by the length of the digit string. -/
theorem ofDigitsBE_shift (cs : List Char) (init : Nat) :
    cs.foldl (fun a c => a * 10 + digitVal c) init = init * 10 ^ cs.length + ofDigitsBE cs := by
  induction cs generalizing init with
  | nil => simp [ofDigitsBE]
  | cons c cs ih =>
    show cs.foldl _ (init * 10 + digitVal c) = _
    rw [ih]
    have h : ofDigitsBE (c :: cs) = digitVal c * 10 ^ cs.length + ofDigitsBE cs := by
      show cs.foldl _ (0 * 10 + digitVal c) = _
      rw [ih]
      ring
    rw [h, List.length_cons]
    ring

/-- Value of an appended digit string. -/
theorem ofDigitsBE_append (l₁ l₂ : List Char) :
    ofDigitsBE (l₁ ++ l₂) = ofDigitsBE l₁ * 10 ^ l₂.length + ofDigitsBE l₂ := by
  rw [ofDigitsBE, List.foldl_append]
  exact ofDigitsBE_shift l₂ _

/-- A block of zero digits has value zero. -/
theorem ofDigitsBE_replicate_zero (k : Nat) : ofDigitsBE (List.replicate k '0') = 0 := by
  induction k with
  | zero => rfl
  | succ k ih => exact ih

/-- The digit string produced for `n` evaluates back to `n` (with an arbitrary
accumulator suffix). -/
theorem ofDigitsBE_toDigitsBEAux (fuel : Nat) :
    ∀ n acc, n ≤ fuel →
      ofDigitsBE (toDigitsBEAux fuel n acc) = n * 10 ^ acc.length + ofDigitsBE acc := by
  induction fuel with
  | zero =>
    intro n acc hn
    interval_cases n
    simp [toDigitsBEAux]
  | succ fuel ih =>
    intro n acc hn
    unfold toDigitsBEAux
    by_cases h0 : n = 0
    · rw [if_pos h0, h0]
      simp
    · rw [if_neg h0]
      have hrec : n / 10 ≤ fuel := by
        have h := Nat.div_lt_self (Nat.pos_of_ne_zero h0) (by norm_num : 1 < 10)
        omega
      rw [ih _ _ hrec]
      have hv : ofDigitsBE (digitChar (n % 10) :: acc) =
          (n % 10) * 10 ^ acc.length + ofDigitsBE acc := by
        show acc.foldl _ (0 * 10 + digitVal (digitChar (n % 10))) = _
        rw [ofDigitsBE_shift, digitVal_digitChar _ (Nat.mod_lt _ (by norm_num))]
        ring
      rw [List.length_cons, hv, pow_succ]
      have h : n / 10 * (10 ^ acc.length * 10) + ((n % 10) * 10 ^ acc.length + ofDigitsBE acc)
          = (n / 10 * 10 + n % 10) * 10 ^ acc.length + ofDigitsBE acc := by ring
      have h2 : n / 10 * 10 + n % 10 = n := by omega
      rw [h, h2]

/-- Round trip of the digit rendering at the value level. -/
theorem ofDigitsBE_toDigitsBE (n : Nat) : ofDigitsBE (toDigitsBE n) = n := by
  unfold toDigitsBE
  by_cases h0 : n = 0
  · rw [if_pos h0, h0]
    decide
  · rw [if_neg h0, ofDigitsBE_toDigitsBEAux _ _ _ (Nat.le_succ n)]
    simp [ofDigitsBE]

/-- All characters of a digit string pass the digit test. -/
theorem toDigitsBE_all_digits (n : Nat) : (toDigitsBE n).all isDigitChar = true := by
  rw [List.all_eq_true]
  intro c hc
  rcases toDigitsBE_mem hc with ⟨d, hd, rfl⟩
  exact isDigitChar_digitChar d hd

/-- Digit strings contain no decimal point. -/
theorem toDigitsBE_no_dot (n : Nat) : ∀ c ∈ toDigitsBE n, c ≠ '.' := by
  intro c hc
  rcases toDigitsBE_mem hc with ⟨d, _, rfl⟩
  exact digitChar_ne_dot d

/-- The accumulator never shrinks. -/
theorem toDigitsBEAux_length (fuel : Nat) :
    ∀ n acc, acc.length ≤ (toDigitsBEAux fuel n acc).length := by
  induction fuel with
  | zero =>
    intro n acc
    exact Nat.le_refl _
  | succ fuel ih =>
    intro n acc
    unfold toDigitsBEAux
    by_cases h0 : n = 0
    · rw [if_pos h0]
    · rw [if_neg h0]
      calc acc.length ≤ (digitChar (n % 10) :: acc).length := by simp
        _ ≤ _ := ih _ _

/-- Digit strings are never empty. -/
theorem toDigitsBE_ne_nil (n : Nat) : toDigitsBE n ≠ [] := by
  unfold toDigitsBE
  by_cases h0 : n = 0
  · rw [if_pos h0]
    simp
  · rw [if_neg h0]
    show toDigitsBEAux (n + 1) n [] ≠ []
    unfold toDigitsBEAux
    rw [if_neg h0]
    intro hcon
    have h := toDigitsBEAux_length n (n / 10) [digitChar (n % 10)]
    rw [hcon] at h
    simp at h

/- Section: Splitting and parsing lemmas -/

/-- Splitting a dot-free list yields the list itself as single part. -/
theorem splitOnDot_no_dot (l : List Char) (h : ∀ c ∈ l, c ≠ '.') :
    splitOnDot l = [l] := by
  induction l with
  | nil => rfl
  | cons c l ih =>
    unfold splitOnDot
    rw [if_neg (h c (List.mem_cons_self c l)), ih (fun x hx => h x (List.mem_cons_of_mem c hx))]

/-- Splitting around a single dot separates the two sides. -/
theorem splitOnDot_append (a b : List Char) (h : ∀ c ∈ a, c ≠ '.') :
    splitOnDot (a ++ '.' :: b) = a :: splitOnDot b := by
  induction a with
  | nil =>
    show splitOnDot ('.' :: b) = [] :: splitOnDot b
    conv_lhs => unfold splitOnDot
    rw [if_pos rfl]
  | cons c a ih =>
    show splitOnDot (c :: (a ++ '.' :: b)) = (c :: a) :: splitOnDot b
    conv_lhs => unfold splitOnDot
    rw [if_neg (h c (List.mem_cons_self c a)), ih (fun x hx => h x (List.mem_cons_of_mem c hx))]

/-- Nonempty lists are not empty for the Boolean test. -/
theorem isEmpty_false_of_ne_nil {α : Type} {l : List α} (h : l ≠ []) :
    l.isEmpty = false := by
  cases l with
  | nil => exact absurd rfl h
  | cons a t => rfl

/-- Assembling a single all-digit part yields the scale-0 decimal. -/
theorem parseDigitsParts_single (neg : Bool) (ip : List Char) (hne : ip ≠ [])
    (hdig : ip.all isDigitChar = true) (hlt : ofDigitsBE ip < 2 ^ 96) :
    parseDigitsParts neg [ip] = some ⟨neg, ofDigitsBE ip, 0⟩ := by
  have hcond : (!ip.isEmpty && ip.all isDigitChar) = true := by
    rw [isEmpty_false_of_ne_nil hne, hdig]
    rfl
  simp only [parseDigitsParts, hcond, if_true]
  rw [if_pos hlt]

/-- Assembling two all-digit parts yields the decimal with the fractional
length as scale. -/
theorem parseDigitsParts_pair (neg : Bool) (ip fp : List Char) (hne : ip ≠ [])
    (hfne : fp ≠ []) (hdig : ip.all isDigitChar = true) (hfdig : fp.all isDigitChar = true)
    (hlt : ofDigitsBE (ip ++ fp) < 2 ^ 96) (hsc : fp.length ≤ 28) :
    parseDigitsParts neg [ip, fp] = some ⟨neg, ofDigitsBE (ip ++ fp), fp.length⟩ := by
  have hcond : (!ip.isEmpty && !fp.isEmpty && ip.all isDigitChar && fp.all isDigitChar) = true := by
    rw [isEmpty_false_of_ne_nil hne, isEmpty_false_of_ne_nil hfne, hdig, hfdig]
    rfl
  simp only [parseDigitsParts, hcond, if_true]
  rw [if_pos ⟨hlt, hsc⟩]

/- Section: Round trip of decimal rendering and parsing -/

/-- A list whose members are all distinct from the minus sign does not start
with one. -/
theorem head?_ne_dash {l : List Char} (h : ∀ c ∈ l, c ≠ '-') : l.head? ≠ some '-' := by
  cases l with
  | nil => simp
  | cons c t =>
    rw [List.head?_cons]
    intro hcon
    injection hcon with hc
    exact h c (List.mem_cons_self c t) hc

/-- Parsing a list that does not start with a minus sign assembles its parts
with a positive sign. -/
theorem parseDecimalChars_not_dash (cs : List Char) (h : cs.head? ≠ some '-') :
    parseDecimalChars cs = parseDigitsParts false (splitOnDot cs) := by
  have hb : (cs.head? == some '-') = false := beq_eq_false_iff_ne.mpr h
  simp only [parseDecimalChars, hb, Bool.false_eq_true, if_false]

/-- Parsing a minus-signed list assembles the parts of the remainder with a
negative sign. -/
theorem parseDecimalChars_dash (cs : List Char) :
    parseDecimalChars ('-' :: cs) = parseDigitsParts true (splitOnDot cs) := by
  simp only [parseDecimalChars, List.head?_cons, beq_self_eq_true, if_true, List.tail_cons]

/-- Parsing an optionally signed body. -/
theorem parseDecimalChars_sign (ng : Bool) (body : List Char) (h : body.head? ≠ some '-') :
    parseDecimalChars ((if ng then ['-'] else []) ++ body) =
      parseDigitsParts ng (splitOnDot body) := by
  cases ng
  · show parseDecimalChars ([] ++ body) = _
    rw [List.nil_append]
    exact parseDecimalChars_not_dash body h
  · show parseDecimalChars ('-' :: body) = _
    exact parseDecimalChars_dash body

/-- Rendering a decimal and parsing the result restores the decimal exactly,
within the capacity bounds of `rust_decimal` (96-bit mantissa, scale at
most 28). -/
theorem parseDecimal_decimalRepr (d : Decimal) (hmb : d.mantissa < 2 ^ 96)
    (hsb : d.scale ≤ 28) : parseDecimal (decimalRepr d) = some d := by
  rcases d with ⟨ng, m, s⟩
  simp only at hmb hsb
  have hne := toDigitsBE_ne_nil m
  have hdig := toDigitsBE_all_digits m
  have hval := ofDigitsBE_toDigitsBE m
  have hnodot := toDigitsBE_no_dot m
  have hnodash : ∀ c ∈ toDigitsBE m, c ≠ '-' := by
    intro c hc
    rcases toDigitsBE_mem hc with ⟨k, _, rfl⟩
    exact digitChar_ne_dash k
  rw [parseDecimal]
  by_cases hs0 : s = 0
  · subst hs0
    have hdata : (decimalRepr ⟨ng, m, 0⟩).data =
        (if ng then ['-'] else []) ++ toDigitsBE m := by
      cases ng <;> simp [decimalRepr]
    rw [hdata, parseDecimalChars_sign ng _ (head?_ne_dash hnodash),
      splitOnDot_no_dot _ hnodot,
      parseDigitsParts_single ng _ hne hdig (by rw [hval]; exact hmb), hval]
  · by_cases hlt : s < (toDigitsBE m).length
    · have hk1 : 1 ≤ (toDigitsBE m).length - s := by omega
      have htkne : (toDigitsBE m).take ((toDigitsBE m).length - s) ≠ [] := by
        apply List.ne_nil_of_length_pos
        rw [List.length_take]
        omega
      have hdrne : (toDigitsBE m).drop ((toDigitsBE m).length - s) ≠ [] := by
        apply List.ne_nil_of_length_pos
        rw [List.length_drop]
        omega
      have htkdig : ((toDigitsBE m).take ((toDigitsBE m).length - s)).all isDigitChar = true := by
        rw [List.all_eq_true]
        intro c hc
        exact (List.all_eq_true.mp hdig) c (List.mem_of_mem_take hc)
      have hdrdig : ((toDigitsBE m).drop ((toDigitsBE m).length - s)).all isDigitChar = true := by
        rw [List.all_eq_true]
        intro c hc
        exact (List.all_eq_true.mp hdig) c (List.mem_of_mem_drop hc)
      have hdl : ((toDigitsBE m).drop ((toDigitsBE m).length - s)).length = s := by
        rw [List.length_drop]
        omega
      have hdata : (decimalRepr ⟨ng, m, s⟩).data =
          (if ng then ['-'] else []) ++
            ((toDigitsBE m).take ((toDigitsBE m).length - s) ++
              '.' :: (toDigitsBE m).drop ((toDigitsBE m).length - s)) := by
        cases ng <;> simp [decimalRepr, hs0, hlt]
      have hbodynodash : ∀ c ∈ (toDigitsBE m).take ((toDigitsBE m).length - s) ++
          '.' :: (toDigitsBE m).drop ((toDigitsBE m).length - s), c ≠ '-' := by
        intro c hc
        rcases List.mem_append.mp hc with h | h
        · exact hnodash c (List.mem_of_mem_take h)
        · rcases List.mem_cons.mp h with rfl | h
          · decide
          · exact hnodash c (List.mem_of_mem_drop h)
      rw [hdata, parseDecimalChars_sign ng
          ((toDigitsBE m).take ((toDigitsBE m).length - s) ++
            '.' :: (toDigitsBE m).drop ((toDigitsBE m).length - s))
          (head?_ne_dash hbodynodash),
        splitOnDot_append _ _ (fun c hc => hnodot c (List.mem_of_mem_take hc)),
        splitOnDot_no_dot _ (fun c hc => hnodot c (List.mem_of_mem_drop hc)),
        parseDigitsParts_pair ng _ _ htkne hdrne htkdig hdrdig
          (by rw [List.take_append_drop, hval]; exact hmb) (by rw [hdl]; exact hsb),
        List.take_append_drop, hval, hdl]
    · have hlen : (toDigitsBE m).length ≤ s := by omega
      have hfpne : List.replicate (s - (toDigitsBE m).length) '0' ++ toDigitsBE m ≠ [] := by
        intro hcon
        exact hne (List.append_eq_nil.mp hcon).2
      have hfpdig : (List.replicate (s - (toDigitsBE m).length) '0' ++ toDigitsBE m).all
          isDigitChar = true := by
        rw [List.all_eq_true]
        intro c hc
        rcases List.mem_append.mp hc with h | h
        · rw [List.eq_of_mem_replicate h]
          decide
        · exact (List.all_eq_true.mp hdig) c h
      have hfpnodot : ∀ c ∈ List.replicate (s - (toDigitsBE m).length) '0' ++ toDigitsBE m,
          c ≠ '.' := by
        intro c hc
        rcases List.mem_append.mp hc with h | h
        · rw [List.eq_of_mem_replicate h]
          decide
        · exact hnodot c h
      have hfpval : ofDigitsBE (List.replicate (s - (toDigitsBE m).length) '0' ++
          toDigitsBE m) = m := by
        rw [ofDigitsBE_append, ofDigitsBE_replicate_zero, hval, Nat.zero_mul, Nat.zero_add]
      have hm0 : ofDigitsBE (['0'] ++ (List.replicate (s - (toDigitsBE m).length) '0' ++
          toDigitsBE m)) = m := by
        rw [ofDigitsBE_append, hfpval]
        have h0 : ofDigitsBE ['0'] = 0 := by decide
        rw [h0, Nat.zero_mul, Nat.zero_add]
      have hfpl : (List.replicate (s - (toDigitsBE m).length) '0' ++ toDigitsBE m).length
          = s := by
        rw [List.length_append, List.length_replicate]
        omega
      have hdata : (decimalRepr ⟨ng, m, s⟩).data =
          (if ng then ['-'] else []) ++
            ('0' :: '.' :: (List.replicate (s - (toDigitsBE m).length) '0' ++
              toDigitsBE m)) := by
        cases ng <;> simp [decimalRepr, hs0, hlt]
      have hsplit : splitOnDot ('0' :: '.' :: (List.replicate (s - (toDigitsBE m).length) '0'
          ++ toDigitsBE m)) =
          ['0'] :: splitOnDot (List.replicate (s - (toDigitsBE m).length) '0' ++
            toDigitsBE m) := by
        have h := splitOnDot_append ['0'] (List.replicate (s - (toDigitsBE m).length) '0' ++
          toDigitsBE m) (by decide)
        rw [List.singleton_append] at h
        exact h
      rw [hdata, parseDecimalChars_sign ng
          ('0' :: '.' :: (List.replicate (s - (toDigitsBE m).length) '0' ++ toDigitsBE m))
          (by rw [List.head?_cons]; decide),
        hsplit, splitOnDot_no_dot _ hfpnodot,
        parseDigitsParts_pair ng _ _ (by decide) hfpne (by decide) hfpdig
          (by rw [hm0]; exact hmb) (by rw [hfpl]; exact hsb),
        hm0, hfpl]

/- Section: Abort-on-error behaviour of the handler -/

/-- If any driver step fails, or any returned row fails to decode, the
handler aborts. -/
theorem metricsHandler_abort (env : PgEnv)
    (h : (∃ e, env.connectRes = Except.error e) ∨
         (∃ e, env.prepareCE = Except.error e) ∨
         (∃ e, env.queryCE = Except.error e) ∨
         (∃ rows, env.queryCE = Except.ok rows ∧
            decodeRows decodeCommonEffectiveness rows = none) ∨
         (∃ e, env.prepareHM = Except.error e) ∨
         (∃ e, env.queryHM = Except.error e) ∨
         (∃ rows, env.queryHM = Except.ok rows ∧ decodeRows decodeHitMiss rows = none) ∨
         (∃ e, env.prepareIU = Except.error e) ∨
         (∃ e, env.queryIU = Except.error e) ∨
         (∃ rows, env.queryIU = Except.ok rows ∧ decodeRows decodeIndexUsage rows = none)) :
    metricsHandler env = none := by
  rcases h with ⟨e, he⟩ | ⟨e, he⟩ | ⟨e, he⟩ | ⟨rows, hq, hd⟩ | ⟨e, he⟩ | ⟨e, he⟩ |
    ⟨rows, hq, hd⟩ | ⟨e, he⟩ | ⟨e, he⟩ | ⟨rows, hq, hd⟩ <;>
    (unfold metricsHandler; (repeat' split) <;> simp_all)

/- Section: Claim theorems -/

set_option maxRecDepth 100000 in
/-- C1 as stated is false: the rendered output for the `orders` record does
not contain the line `postgresql.common_effectiveness.seq_scan.orders 10`;
the code prefixes every line with `test.` and separates name and value with
a colon. -/
theorem c1_counterexample :
    ¬ ("postgresql.common_effectiveness.seq_scan.orders 10\n".data <:+:
        (metricsRender [ordersRec] [] []).data) := by
  decide

set_option maxRecDepth 100000 in
/-- C1 amended: for the single `orders` common-effectiveness record the output
is exactly the eight lines in source order, each of the form
`test.postgresql.common_effectiveness.<metric>.orders: <value>` and each
terminated by a single newline. -/
theorem c1_amended_theorem :
    metricsRender [ordersRec] [] [] =
      "test.postgresql.common_effectiveness.seq_scan.orders: 10\n" ++
      "test.postgresql.common_effectiveness.seq_tup_read.orders: 500\n" ++
      "test.postgresql.common_effectiveness.idx_scan.orders: 3\n" ++
      "test.postgresql.common_effectiveness.vacuum_full_count.orders: 1\n" ++
      "test.postgresql.common_effectiveness.autovacuum_count.orders: 2\n" ++
      "test.postgresql.common_effectiveness.analyze_count.orders: 0\n" ++
      "test.postgresql.common_effectiveness.autoanalyze_count.orders: 4\n" ++
      "test.postgresql.common_effectiveness.avg.orders: 50\n" := by
  decide

set_option maxRecDepth 100000 in
/-- C2 as stated is false: the hit/miss record with heap_read 100,
heap_hit 900 and ratio 0.9 does not render the line
`postgresql.hit_miss.heap_read 100`; no `postgresql.hit_miss` namespace
exists in the output. -/
theorem c2_counterexample :
    ¬ ("postgresql.hit_miss.heap_read 100\n".data <:+:
        (metricsRender [] [hmRec09] []).data) := by
  decide

set_option maxRecDepth 100000 in
/-- C2 amended: all three families render under the single fixed prefix
`test.postgresql.common_effectiveness`, so the hit/miss record renders as
three colon-separated lines under that prefix. -/
theorem c2_amended_theorem :
    metricsRender [] [hmRec09] [] =
      "test.postgresql.common_effectiveness.heap_read: 100\n" ++
      "test.postgresql.common_effectiveness.heap_hit: 900\n" ++
      "test.postgresql.common_effectiveness.ratio: 0.9\n" := by
  decide

/-- C3: the hit/miss SQL has no guard against a zero divisor, so on a
statistics view whose two sums are both zero the engine raises a
division-by-zero error and the unwrap in the handler aborts the whole
request. -/
theorem c3_zero_sums_abort :
    hitMissQuery [⟨0, 0⟩] = Except.error PgError.divisionByZero ∧
    metricsHandler (envOfHitMiss [⟨0, 0⟩]) = none := by
  decide

/-- C4 witness: a failed connection alone aborts the request. -/
theorem c4_witness :
    metricsHandler ⟨Except.error PgError.connectionFailed, Except.ok (), Except.ok [],
      Except.ok (), Except.ok [], Except.ok (), Except.ok []⟩ = none :=
  metricsHandler_abort _ (Or.inl ⟨PgError.connectionFailed, rfl⟩)

/-- C5: the output is the join, in collection order, of the per-record blocks
of the three families, with no sorting and no deduplication: all eight lines
of each common-effectiveness record in returned order, then the hit/miss
lines, then the index-usage pairs. -/
theorem c5_order (ce : List Common_effectiveness) (hm : List Hit_miss)
    (iu : List Index_usage) :
    metricsRender ce hm iu =
      String.join (ce.map ceBlock) ++ String.join (hm.map hmBlock) ++
        String.join (iu.map iuBlock) :=
  metricsRender_eq_sections ce hm iu

/-- C6: rendering is deterministic — equal record lists give byte-identical
output. -/
theorem c6_deterministic (ce₁ ce₂ : List Common_effectiveness) (hm₁ hm₂ : List Hit_miss)
    (iu₁ iu₂ : List Index_usage) (hce : ce₁ = ce₂) (hhm : hm₁ = hm₂) (hiu : iu₁ = iu₂) :
    metricsRender ce₁ hm₁ iu₁ = metricsRender ce₂ hm₂ iu₂ := by
  rw [hce, hhm, hiu]

/-- C6 witness at concrete lists. -/
theorem c6_witness :
    metricsRender [ordersRec] [hmRec09] [] = metricsRender [ordersRec] [hmRec09] [] :=
  c6_deterministic _ _ _ _ _ _ rfl rfl rfl

/-- C7: with zero hit/miss rows the output is just the other two sections (no
hit/miss lines); in general the hit/miss loop runs once per returned row and
contributes exactly three lines per row. -/
theorem c7_hit_miss_rows (ce : List Common_effectiveness) (hm : List Hit_miss)
    (iu : List Index_usage) :
    metricsRender ce [] iu = ceSection ce ++ iuSection iu ∧
    metricsRender ce hm iu = ceSection ce ++ hmSection hm ++ iuSection iu ∧
    countNewlines (hmSection hm) = 3 * hm.length := by
  refine ⟨?_, metricsRender_eq_sections ce hm iu, countNewlines_hmSection hm⟩
  rw [metricsRender_eq_sections]
  rw [show hmSection ([] : List Hit_miss) = "" from rfl, String.append_empty]

/-- C8: the ratio line carries the full decimal rendering, and parsing that
rendering restores the original decimal exactly (no precision loss), under
the capacity invariants of the decimal type. -/
theorem c8_ratio_roundtrip (h : Hit_miss) (hmb : h.ratioVal.mantissa < 2 ^ 96)
    (hsb : h.ratioVal.scale ≤ 28) :
    hmRatioLine h = "test.postgresql.common_effectiveness.ratio: " ++
      decimalRepr h.ratioVal ++ "\n" ∧
    parseDecimal (decimalRepr h.ratioVal) = some h.ratioVal :=
  ⟨rfl, parseDecimal_decimalRepr h.ratioVal hmb hsb⟩

/-- C8 witness: the 0.9 ratio round-trips. -/
theorem c8_witness :
    hmRec09.ratioVal.mantissa < 2 ^ 96 ∧ hmRec09.ratioVal.scale ≤ 28 ∧
      parseDecimal (decimalRepr hmRec09.ratioVal) = some hmRec09.ratioVal :=
  ⟨by decide, by decide, (c8_ratio_roundtrip hmRec09 (by decide) (by decide)).2⟩

set_option maxRecDepth 400000 in
/-- C9 as stated is false: no pair of metric families uses different
name-to-value separators; at concrete records all thirteen line kinds use the
colon separator, and the space-separated variants occur nowhere in the
output. -/
theorem c9_counterexample :
    metricsRender [ordersRec] [hmRec09] [iuRecSample] =
      "test.postgresql.common_effectiveness.seq_scan.orders: 10\n" ++
      "test.postgresql.common_effectiveness.seq_tup_read.orders: 500\n" ++
      "test.postgresql.common_effectiveness.idx_scan.orders: 3\n" ++
      "test.postgresql.common_effectiveness.vacuum_full_count.orders: 1\n" ++
      "test.postgresql.common_effectiveness.autovacuum_count.orders: 2\n" ++
      "test.postgresql.common_effectiveness.analyze_count.orders: 0\n" ++
      "test.postgresql.common_effectiveness.autoanalyze_count.orders: 4\n" ++
      "test.postgresql.common_effectiveness.avg.orders: 50\n" ++
      "test.postgresql.common_effectiveness.heap_read: 100\n" ++
      "test.postgresql.common_effectiveness.heap_hit: 900\n" ++
      "test.postgresql.common_effectiveness.ratio: 0.9\n" ++
      "test.postgresql.common_effectiveness.percent_of_times_index_used.users: 75\n" ++
      "test.postgresql.common_effectiveness.rows_in_table.users: 1000\n" ∧
    ¬ ("test.postgresql.common_effectiveness.seq_scan.orders 10\n".data <:+:
        (ceBlock ordersRec).data) ∧
    ¬ ("test.postgresql.common_effectiveness.heap_read 100\n".data <:+:
        (hmBlock hmRec09).data) ∧
    ¬ ("test.postgresql.common_effectiveness.percent_of_times_index_used.users 75\n".data <:+:
        (iuBlock iuRecSample).data) := by
  refine ⟨by decide, by decide, by decide, by decide⟩

/-- C9 amended: the separator is uniform: every line of every family has
the form `<name>: <value>` followed by a newline. -/
theorem c9_amended_theorem (r : Common_effectiveness) (h : Hit_miss) (u : Index_usage) :
    ceSeqScanLine r = ("test.postgresql.common_effectiveness.seq_scan." ++ r.relname) ++
      ": " ++ intRepr r.seq_scan ++ "\n" ∧
    ceSeqTupReadLine r = ("test.postgresql.common_effectiveness.seq_tup_read." ++ r.relname) ++
      ": " ++ intRepr r.seq_tup_read ++ "\n" ∧
    ceIdxScanLine r = ("test.postgresql.common_effectiveness.idx_scan." ++ r.relname) ++
      ": " ++ intRepr r.idx_scan ++ "\n" ∧
    ceVacuumFullCountLine r =
      ("test.postgresql.common_effectiveness.vacuum_full_count." ++ r.relname) ++
      ": " ++ intRepr r.vacuum_full_count ++ "\n" ∧
    ceAutovacuumCountLine r =
      ("test.postgresql.common_effectiveness.autovacuum_count." ++ r.relname) ++
      ": " ++ intRepr r.autovacuum_count ++ "\n" ∧
    ceAnalyzeCountLine r =
      ("test.postgresql.common_effectiveness.analyze_count." ++ r.relname) ++
      ": " ++ intRepr r.analyze_count ++ "\n" ∧
    ceAutoanalyzeCountLine r =
      ("test.postgresql.common_effectiveness.autoanalyze_count." ++ r.relname) ++
      ": " ++ intRepr r.autoanalyze_count ++ "\n" ∧
    ceAvgLine r = ("test.postgresql.common_effectiveness.avg." ++ r.relname) ++
      ": " ++ intRepr r.avg ++ "\n" ∧
    hmHeapReadLine h = "test.postgresql.common_effectiveness.heap_read" ++
      ": " ++ decimalRepr h.heap_read ++ "\n" ∧
    hmHeapHitLine h = "test.postgresql.common_effectiveness.heap_hit" ++
      ": " ++ decimalRepr h.heap_hit ++ "\n" ∧
    hmRatioLine h = "test.postgresql.common_effectiveness.ratio" ++
      ": " ++ decimalRepr h.ratioVal ++ "\n" ∧
    iuPercentLine u =
      ("test.postgresql.common_effectiveness.percent_of_times_index_used." ++ u.relname) ++
      ": " ++ intRepr u.percent_of_times_index_used ++ "\n" ∧
    iuRowsInTableLine u =
      ("test.postgresql.common_effectiveness.rows_in_table." ++ u.relname) ++
      ": " ++ intRepr u.rows_in_table ++ "\n" := by
  refine ⟨?_, ?_, ?_, ?_, ?_, ?_, ?_, ?_, ?_, ?_, ?_, ?_, ?_⟩ <;>
    simp [ceSeqScanLine, ceSeqTupReadLine, ceIdxScanLine, ceVacuumFullCountLine,
      ceAutovacuumCountLine, ceAnalyzeCountLine, ceAutoanalyzeCountLine, ceAvgLine,
      hmHeapReadLine, hmHeapHitLine, hmRatioLine, iuPercentLine, iuRowsInTableLine,
      String.append_assoc]

set_option maxRecDepth 400000 in
/-- C10 as stated is false: a table name containing a newline makes the
output of a single common-effectiveness record decompose into more than
eight newline-terminated lines, so no eight-line decomposition exists. -/
theorem c10_counterexample :
    ¬ ∃ L : List String, metricsRender [ceNewlineRec] [] [] = String.join L ∧
      L.length = 8 ∧ ∀ l ∈ L, NlLine l := by
  rintro ⟨L, hL, hlen, hlines⟩
  have h1 : countNewlines (metricsRender [ceNewlineRec] [] []) = 16 := by decide
  rw [hL, countNewlines_join_lines hlines, hlen] at h1
  exact absurd h1 (by decide)

/-- C10 amended: when no table name contains a newline, the output is the
join of exactly `8a + 3b + 2c` complete newline-terminated lines, and it is
empty exactly when all three record lists are empty. -/
theorem c10_amended_theorem (ce : List Common_effectiveness) (hm : List Hit_miss)
    (iu : List Index_usage) (hce : ∀ r ∈ ce, countNewlines r.relname = 0)
    (hiu : ∀ r ∈ iu, countNewlines r.relname = 0) :
    (∃ L : List String, metricsRender ce hm iu = String.join L ∧
      L.length = 8 * ce.length + 3 * hm.length + 2 * iu.length ∧ ∀ l ∈ L, NlLine l) ∧
    (metricsRender ce hm iu = "" ↔ ce = [] ∧ hm = [] ∧ iu = []) := by
  constructor
  · exact ⟨allLines ce hm iu, metricsRender_eq_join_allLines ce hm iu,
      allLines_length ce hm iu, allLines_nlLine hce hiu⟩
  · constructor
    · intro h0
      have hc : countNewlines (metricsRender ce hm iu) = 0 := by
        rw [h0]
        rfl
      rw [metricsRender_eq_join_allLines, countNewlines_join_lines (allLines_nlLine hce hiu),
        allLines_length] at hc
      refine ⟨List.length_eq_zero.mp (by omega), List.length_eq_zero.mp (by omega),
        List.length_eq_zero.mp (by omega)⟩
    · rintro ⟨rfl, rfl, rfl⟩
      rfl

/-- C10 witness: one record of each family yields thirteen complete lines and
a nonempty output. -/
theorem c10_witness :
    (∀ r ∈ [ordersRec], countNewlines r.relname = 0) ∧
    (∀ r ∈ [iuRecSample], countNewlines r.relname = 0) ∧
    ((∃ L : List String, metricsRender [ordersRec] [hmRec09] [iuRecSample] = String.join L ∧
        L.length = 8 * [ordersRec].length + 3 * [hmRec09].length + 2 * [iuRecSample].length ∧
        ∀ l ∈ L, NlLine l) ∧
      (metricsRender [ordersRec] [hmRec09] [iuRecSample] = "" ↔
        [ordersRec] = [] ∧ [hmRec09] = [] ∧ [iuRecSample] = [])) :=
  ⟨by decide, by decide,
    c10_amended_theorem [ordersRec] [hmRec09] [iuRecSample] (by decide) (by decide)⟩
